import Mathlib

/-!
Verification of the event analytics and alerting engine of a multi-layer
honeypot monitoring system. The visible repository sources are the React
presentation layer (`db1/src/pages/*.js`) and its API client; the backend
engine (Event Store, Alert Evaluator, Aggregation Engine, Investigation
Correlator, Live Feed) is consumed through the API boundary and modelled
here from the specification where its code is not part of the sources.
JavaScript numbers carrying scores are embedded as exact rationals;
timestamps as naturals.
-/

namespace Honeypot

/-- Modelled from the spec: the Event data model of §3 (the backend Event
Store is not among the visible sources; only its API callers are). Required
fields `source_address`, `service`, `action`; optional descriptive and
enrichment fields; `score` a real number in [0,1] embedded as ℚ;
`created_at` a timestamp embedded as ℕ. -/
structure Event where
  id : Nat
  source_address : String
  service : String
  action : String
  target_file : Option String := none
  user_agent : Option String := none
  score : ℚ
  is_anomaly : Bool := false
  country : Option String := none
  region : Option String := none
  city : Option String := none
  isp : Option String := none
  created_at : Nat
deriving Repr, DecidableEq

/-- From `db1/src/pages/Alerts.js` (`getRiskLabel`): severity label of a
score, fixed bands. -/
def getRiskLabel (score : ℚ) : String :=
  if score ≥ 0.9 then "CRITICAL"
  else if score ≥ 0.85 then "HIGH"
  else if score ≥ 0.75 then "MEDIUM"
  else "LOW"

/-- From `db1/src/pages/Alerts.js` (`getRiskClass`): CSS class of a score,
same fixed bands as `getRiskLabel`. -/
def getRiskClass (score : ℚ) : String :=
  if score ≥ 0.9 then "critical"
  else if score ≥ 0.85 then "high"
  else if score ≥ 0.75 then "medium"
  else "low"

/-- From `src/unnamed/part_001` (`api.checkHealth`): the health response,
when the fetch does not throw, carries the `ok` flag of the HTTP response. -/
structure HealthResponse where
  ok : Bool
deriving Repr, DecidableEq

/-- From `src/unnamed/part_001` (`api.checkHealth`): the fetch either
throws (`none`) or yields a response; `checkHealth` returns `response.ok`
on success and `false` on any thrown error. -/
def checkHealth (fetched : Option HealthResponse) : Bool :=
  match fetched with
  | some response => response.ok
  | none => false

/-- From `db1/src/pages/Alerts.js` (threshold input `onChange`):
`setThreshold(parseFloat(e.target.value) || 0.85)`. The parse result is
`none` for NaN; JavaScript `||` falls back to the default exactly on the
falsy values NaN and 0. -/
def nextThreshold (parsed : Option ℚ) : ℚ :=
  match parsed with
  | none => 0.85
  | some v => if v = 0 then 0.85 else v

/-- Modelled from the spec: the Event Store (§4.1, not among the visible
sources) is an append-only log, held here in insertion (chronological)
order, oldest first; queries present events most recent first, i.e. in
reverse insertion order. -/
abbrev EventStore := List Event

/-- Modelled from the spec: the Live Feed filter (§4.6) — optional source
address (exact match) and optional minimum score. -/
def matchesFilter (sourceAddr : Option String) (minScore : Option ℚ)
    (e : Event) : Bool :=
  (match sourceAddr with
   | none => true
   | some a => e.source_address == a) &&
  (match minScore with
   | none => true
   | some m => decide (m ≤ e.score))

/-- Modelled from the spec: the Alert Evaluator's result before limit
truncation (§4.4) — every stored event with `score ≥ threshold`. -/
def alertsAll (store : EventStore) (threshold : ℚ) : List Event :=
  store.filter (fun e => decide (threshold ≤ e.score))

/-- Modelled from the spec: `alerts(threshold, limit)` (§4.4) filters
`score ≥ threshold`, most recent first, truncated to `limit`. -/
def alerts (store : EventStore) (threshold : ℚ) (limit : Nat) : List Event :=
  ((alertsAll store threshold).reverse).take limit

/-- Modelled from the spec: the untruncated live feed (§4.6), most recent
first. -/
def liveFeedAll (store : EventStore) (sourceAddr : Option String)
    (minScore : Option ℚ) : List Event :=
  (store.filter (matchesFilter sourceAddr minScore)).reverse

/-- Modelled from the spec: `liveEvents(limit, source_address?, min_score?)`
(§4.6), most recent first, truncated to `limit`. -/
def liveEvents (store : EventStore) (limit : Nat) (sourceAddr : Option String)
    (minScore : Option ℚ) : List Event :=
  (liveFeedAll store sourceAddr minScore).take limit

/-- Modelled from the spec: an event draft as submitted by a sensor (§4.1);
required fields may be missing. -/
structure EventDraft where
  source_address : Option String := none
  service : Option String := none
  action : Option String := none
  target_file : Option String := none
  user_agent : Option String := none
  score : ℚ := 0
  is_anomaly : Bool := false
  country : Option String := none
  region : Option String := none
  city : Option String := none
  isp : Option String := none
deriving Repr, DecidableEq

/-- Modelled from the spec: the error taxonomy entry for a malformed or
incomplete event draft (§7). -/
inductive ValidationError where
  | missingRequired
  | scoreOutOfRange
deriving Repr, DecidableEq

/-- Modelled from the spec: `append(event_draft)` / `ingest` (§4.1, §6) —
assigns `id` (serially, from the store) and `created_at` (the ingestion
clock), persists by appending, and returns the committed Event; fails with
`ValidationError` if a required field is missing or the score is outside
[0,1]. -/
def ingest (store : EventStore) (d : EventDraft) (now : Nat) :
    Except ValidationError (Event × EventStore) :=
  match d.source_address, d.service, d.action with
  | some src, some svc, some act =>
    if 0 ≤ d.score ∧ d.score ≤ 1 then
      let e : Event :=
        { id := store.length, source_address := src, service := svc,
          action := act, target_file := d.target_file,
          user_agent := d.user_agent, score := d.score,
          is_anomaly := d.is_anomaly, country := d.country,
          region := d.region, city := d.city, isp := d.isp,
          created_at := now }
      Except.ok (e, store ++ [e])
    else Except.error ValidationError.scoreOutOfRange
  | _, _, _ => Except.error ValidationError.missingRequired

/-- Modelled from the spec: the store after an ingestion attempt — the
committed store on success, unchanged on a `ValidationError` (reject, do
not commit). -/
def ingestStore (store : EventStore) (d : EventDraft) (now : Nat) :
    EventStore :=
  match ingest store d now with
  | Except.ok (_, s) => s
  | Except.error _ => store

/-- Modelled from the spec: the Investigation Correlator's report (§4.5) —
summary statistics plus the matched event history, most recent first. -/
structure InvestigationReport where
  total_attacks : Nat
  avg_score : ℚ
  max_score : ℚ
  unique_actions : Nat
  unique_services : Nat
  logs : List Event
deriving Repr, DecidableEq

/-- Modelled from the spec: one step of the single-pass accumulation of
summary statistics (§4.5) — running count, running score sum, running score
maximum. -/
def statsStep (acc : Nat × ℚ × ℚ) (e : Event) : Nat × ℚ × ℚ :=
  (acc.1 + 1, acc.2.1 + e.score, max acc.2.2 e.score)

/-- Modelled from the spec: the single pass over the matched Event set
computing (count, score sum, score maximum). -/
def statsFold (logs : List Event) : Nat × ℚ × ℚ :=
  logs.foldl statsStep (0, 0, 0)

/-- Modelled from the spec: the full matching Event set of one source
address (§4.5). -/
def matchingEvents (store : EventStore) (addr : String) : List Event :=
  store.filter (fun e => e.source_address == addr)

/-- Modelled from the spec: `investigate(source_address)` (§4.5) — an empty
zero-valued report when no events match (the policy this spec recommends),
otherwise summary statistics from a single pass over the matched set. -/
def investigate (store : EventStore) (addr : String) : InvestigationReport :=
  let logs := matchingEvents store addr
  let acc := statsFold logs
  { total_attacks := acc.1
    avg_score := if acc.1 = 0 then 0 else acc.2.1 / (acc.1 : ℚ)
    max_score := acc.2.2
    unique_actions := (logs.map Event.action).eraseDups.length
    unique_services := (logs.map Event.service).eraseDups.length
    logs := logs.reverse }

/-- Modelled from the spec: left-closed/right-open time-bucket membership
over `created_at` (§4.3). -/
def inBucket (lo hi : Nat) (e : Event) : Bool :=
  decide (lo ≤ e.created_at) && decide (e.created_at < hi)

/-- Modelled from the spec: the number of stored events in `[lo, hi)`. -/
def bucketCount (store : EventStore) (lo hi : Nat) : Nat :=
  (store.filter (inBucket lo hi)).length

/-- Modelled from the spec: `timeSeries(window, bucketWidth)` (§4.3) — one
`(bucket start, count)` entry for every bucket of the window, zero-count
buckets included. -/
def timeSeries (store : EventStore) (start width n : Nat) :
    List (Nat × Nat) :=
  (List.range n).map (fun i =>
    (start + i * width,
     bucketCount store (start + i * width) (start + i * width + width)))

/-- Modelled from the spec: the total event count of the window covered by
`n` buckets of width `width`. -/
def windowCount (store : EventStore) (start width n : Nat) : Nat :=
  bucketCount store start (start + n * width)

/-- Modelled from the spec: aggregation totals (§4.3, §6) — total event
count, score sum (from which the average is derived), and high-risk count
(`score ≥ 0.8`). -/
structure AggTotals where
  total : Nat
  sumScore : ℚ
  highRisk : Nat
deriving Repr, DecidableEq

/-- Modelled from the spec: full-scan recomputation of the aggregation
totals from the Event Store contents (§4.3). -/
def totalsScan (store : EventStore) : AggTotals :=
  { total := store.length
    sumScore := (store.map Event.score).sum
    highRisk := (store.filter (fun e => decide ((0.8:ℚ) ≤ e.score))).length }

/-- Modelled from the spec: the maintained/incremental aggregate update
applied as each event commits (§4.3). -/
def totalsStep (a : AggTotals) (e : Event) : AggTotals :=
  { total := a.total + 1
    sumScore := a.sumScore + e.score
    highRisk := if (0.8:ℚ) ≤ e.score then a.highRisk + 1 else a.highRisk }

/-- Modelled from the spec: the maintained/incremental aggregation path —
fold the per-commit update over the sequence of ingested events. -/
def totalsIncremental (events : List Event) : AggTotals :=
  events.foldl totalsStep ⟨0, 0, 0⟩

/-- A concrete sample event for closed instances. -/
def sampleEvent (i : Nat) (addr : String) (sc : ℚ) (t : Nat) : Event :=
  { id := i, source_address := addr, service := "ssh",
    action := "login_attempt", score := sc, created_at := t }

/-- The three-event scenario of §8: address 10.0.0.5 with scores 0.95,
0.40, 0.91. -/
def scenarioStore : EventStore :=
  [sampleEvent 0 "10.0.0.5" 0.95 100,
   sampleEvent 1 "10.0.0.5" 0.40 200,
   sampleEvent 2 "10.0.0.5" 0.91 300]

/-- A concrete well-formed sample draft. -/
def draft95 : EventDraft :=
  { source_address := some "10.0.0.5", service := some "ssh",
    action := some "login_attempt", score := 0.95 }

/-- A concrete committed event, for closed live-feed instances. -/
def evA : Event := sampleEvent 0 "1.1.1.1" 0.5 10

/-- A second concrete committed event, more recent than `evA`. -/
def evB : Event := sampleEvent 1 "2.2.2.2" 0.6 20

/-- A concrete store for time-series instances: one event in the first
10-wide bucket, none in the second, one in the third. -/
def tsStore : EventStore :=
  [sampleEvent 0 "3.3.3.3" 0.5 5, sampleEvent 1 "4.4.4.4" 0.5 25]

end Honeypot

namespace Honeypot

/-- C5: for every score `s`, the alerts view's risk label is CRITICAL iff
`s ≥ 0.90`, HIGH iff `0.85 ≤ s < 0.90`, MEDIUM iff `0.75 ≤ s < 0.85`, and
LOW otherwise, and the CSS risk class follows the same fixed bands. -/
theorem riskLabel_bands (s : ℚ) :
    (getRiskLabel s = "CRITICAL" ↔ 0.9 ≤ s) ∧
    (getRiskLabel s = "HIGH" ↔ 0.85 ≤ s ∧ s < 0.9) ∧
    (getRiskLabel s = "MEDIUM" ↔ 0.75 ≤ s ∧ s < 0.85) ∧
    (getRiskLabel s = "LOW" ↔ s < 0.75) ∧
    (getRiskClass s = "critical" ↔ 0.9 ≤ s) ∧
    (getRiskClass s = "high" ↔ 0.85 ≤ s ∧ s < 0.9) ∧
    (getRiskClass s = "medium" ↔ 0.75 ≤ s ∧ s < 0.85) ∧
    (getRiskClass s = "low" ↔ s < 0.75) := by
  unfold getRiskLabel getRiskClass
  split_ifs with h1 h2 h3 <;>
    refine ⟨?_, ?_, ?_, ?_, ?_, ?_, ?_, ?_⟩ <;>
    simp_all <;>
    first
      | linarith
      | (intro h; linarith)

/-- C9: `checkHealth` returns a boolean and never throws; it returns `true`
exactly when the health fetch completes with an ok response, and `false` on
a thrown fetch error or a non-ok response. -/
theorem checkHealth_ok_iff (fetched : Option HealthResponse) :
    (checkHealth fetched = true ↔ fetched = some ⟨true⟩) ∧
    (checkHealth fetched = false ↔
      fetched = none ∨ fetched = some ⟨false⟩) := by
  rcases fetched with _ | ⟨b⟩
  · simp [checkHealth]
  · cases b <;> simp [checkHealth]

/-- C10: the threshold used for the next alerts query is the parsed value
when it is nonzero, and the default 0.85 whenever the text parses to 0 or
NaN; in particular the operator can never set a threshold of exactly 0. -/
theorem nextThreshold_spec (parsed : Option ℚ) :
    ((parsed = none ∨ parsed = some 0) → nextThreshold parsed = 0.85) ∧
    (∀ v : ℚ, parsed = some v → v ≠ 0 → nextThreshold parsed = v) ∧
    nextThreshold parsed ≠ 0 := by
  rcases parsed with _ | v
  · exact ⟨fun _ => rfl, by simp, by norm_num [nextThreshold]⟩
  · refine ⟨?_, ?_, ?_⟩
    · rintro (h | h)
      · exact absurd h (by simp)
      · obtain rfl : v = 0 := by simpa using h
        simp [nextThreshold]
    · intro w hw hw0
      obtain rfl : v = w := by simpa using hw
      simp [nextThreshold, hw0]
    · by_cases hv : v = 0
      · subst hv
        norm_num [nextThreshold]
      · simp [nextThreshold, hv]

/-- Witness for C10: at the concrete inputs `some (1/2)` and `some 0` the
threshold comes out as 1/2 and the default 0.85 respectively, and is
nonzero. -/
theorem nextThreshold_spec_witness :
    nextThreshold (some (1/2)) = 1/2 ∧ nextThreshold (some 0) = 0.85 ∧
    nextThreshold (some (1/2)) ≠ 0 :=
  ⟨(nextThreshold_spec (some (1/2))).2.1 (1/2) rfl (by norm_num),
   (nextThreshold_spec (some 0)).1 (Or.inr rfl),
   (nextThreshold_spec (some (1/2))).2.2⟩

/-- C1: `alerts(threshold = t)` returns, before limit truncation, exactly
the stored events whose score is at or above `t`; for `t ≤ t'` every event
of `alerts(t')` already appears in `alerts(t)` — raising the threshold
never adds events. -/
theorem alertsAll_exact_and_monotone (store : EventStore) (t t' : ℚ) :
    (∀ e : Event, e ∈ alertsAll store t ↔ e ∈ store ∧ t ≤ e.score) ∧
    (alerts store t = fun limit => ((alertsAll store t).reverse).take limit) ∧
    (t ≤ t' → ∀ e : Event, e ∈ alertsAll store t' → e ∈ alertsAll store t) := by
  refine ⟨?_, rfl, ?_⟩
  · intro e
    simp [alertsAll, List.mem_filter]
  · intro htt e he
    simp only [alertsAll, List.mem_filter, decide_eq_true_eq] at he ⊢
    exact ⟨he.1, le_trans htt he.2⟩

/-- Witness for C1: in the scenario store, the event scored 0.91 belongs to
`alertsAll` at threshold 0.85 and hence also at the lower threshold 0.5. -/
theorem alertsAll_exact_and_monotone_witness :
    sampleEvent 2 "10.0.0.5" 0.91 300 ∈ alertsAll scenarioStore 0.5 := by
  apply (alertsAll_exact_and_monotone scenarioStore 0.5 0.85).2.2 (by norm_num)
  exact ((alertsAll_exact_and_monotone scenarioStore 0.85 0.85).1 _).mpr
    ⟨by simp [scenarioStore], by norm_num [sampleEvent]⟩

/-- C6: ingestion fails with `ValidationError` exactly when a required
field (`source_address`, `service`, `action`) is missing or the score lies
outside [0,1]; on error the store is unchanged (nothing is committed); on
success the event is assigned its `id` and `created_at` and is appended to
the store. -/
theorem ingest_validation (store : EventStore) (d : EventDraft) (now : Nat) :
    ((∃ err, ingest store d now = Except.error err) ↔
      d.source_address = none ∨ d.service = none ∨ d.action = none ∨
      d.score < 0 ∨ 1 < d.score) ∧
    (∀ err, ingest store d now = Except.error err →
      ingestStore store d now = store) ∧
    (∀ e s', ingest store d now = Except.ok (e, s') →
      s' = store ++ [e] ∧ e.created_at = now ∧ e.id = store.length ∧
      e.score = d.score ∧ some e.source_address = d.source_address ∧
      some e.service = d.service ∧ some e.action = d.action) := by
  obtain ⟨src, svc, act, tf, ua, sc, an, co, re, ci, ip⟩ := d
  rcases src with _ | src
  · exact ⟨by simp [ingest], fun err h => rfl,
      fun e s' h => by simp [ingest] at h⟩
  rcases svc with _ | svc
  · exact ⟨by simp [ingest], fun err h => rfl,
      fun e s' h => by simp [ingest] at h⟩
  rcases act with _ | act
  · exact ⟨by simp [ingest], fun err h => rfl,
      fun e s' h => by simp [ingest] at h⟩
  by_cases h : 0 ≤ sc ∧ sc ≤ 1
  · refine ⟨?_, ?_, ?_⟩
    · constructor
      · rintro ⟨err, herr⟩
        simp only [ingest, if_pos h] at herr
        cases herr
      · rintro (h1 | h1 | h1 | h1 | h1) <;>
          first | cases h1 | linarith [h.1, h.2]
    · intro err herr
      simp only [ingest, if_pos h] at herr
      cases herr
    · intro e s' hok
      simp only [ingest, if_pos h] at hok
      rw [Except.ok.injEq, Prod.mk.injEq] at hok
      obtain ⟨he, hs⟩ := hok
      subst he hs
      exact ⟨rfl, rfl, rfl, rfl, rfl, rfl, rfl⟩
  · refine ⟨?_, ?_, ?_⟩
    · constructor
      · intro _
        rcases not_and_or.mp h with h1 | h1
        · exact Or.inr (Or.inr (Or.inr (Or.inl (lt_of_not_le h1))))
        · exact Or.inr (Or.inr (Or.inr (Or.inr (lt_of_not_le h1))))
      · intro _
        refine ⟨ValidationError.scoreOutOfRange, ?_⟩
        simp only [ingest]
        rw [if_neg h]
    · intro err herr
      simp only [ingestStore, ingest]
      rw [if_neg h]
    · intro e s' hok
      simp only [ingest, if_neg h] at hok
      cases hok

/-- Witness for C6: a draft with score 2 is rejected leaving the empty
store unchanged, and a well-formed draft with score 0.95 commits an event
carrying the assigned `id` 0 and `created_at` 7. -/
theorem ingest_validation_witness :
    ingestStore []
      { source_address := some "10.0.0.5", service := some "ssh",
        action := some "login_attempt", score := 2 } 7 = [] ∧
    (∃ e s', ingest []
      { source_address := some "10.0.0.5", service := some "ssh",
        action := some "login_attempt", score := 0.95 } 7 =
        Except.ok (e, s') ∧
      s' = [] ++ [e] ∧ e.created_at = 7 ∧ e.id = 0) := by
  constructor
  · refine (ingest_validation []
      { source_address := some "10.0.0.5", service := some "ssh",
        action := some "login_attempt", score := 2 } 7).2.1
      ValidationError.scoreOutOfRange ?_
    simp only [ingest]
    rw [if_neg (by norm_num)]
  · obtain ⟨e, s', hok⟩ :
        ∃ e s', ingest []
          { source_address := some "10.0.0.5", service := some "ssh",
            action := some "login_attempt", score := 0.95 } 7 =
          Except.ok (e, s') := by
      rcases hok : ingest []
          { source_address := some "10.0.0.5", service := some "ssh",
            action := some "login_attempt", score := 0.95 } 7 with err | ⟨e, s'⟩
      · exfalso
        simp only [ingest] at hok
        rw [if_pos (by norm_num)] at hok
        cases hok
      · exact ⟨e, s', rfl⟩
    have h := (ingest_validation []
      { source_address := some "10.0.0.5", service := some "ssh",
        action := some "login_attempt", score := 0.95 } 7).2.2 e s' hok
    exact ⟨e, s', hok, h.1, h.2.1, h.2.2.1⟩

/-- Helper: a successful ingestion appends its committed event to the
store. -/
theorem ingest_ok_append (store : EventStore) (d : EventDraft) (now : Nat)
    (e : Event) (s' : EventStore)
    (hok : ingest store d now = Except.ok (e, s')) : s' = store ++ [e] := by
  obtain ⟨src, svc, act, tf, ua, sc, an, co, re, ci, ip⟩ := d
  rcases src with _ | src
  · simp [ingest] at hok
  rcases svc with _ | svc
  · simp [ingest] at hok
  rcases act with _ | act
  · simp [ingest] at hok
  by_cases h : 0 ≤ sc ∧ sc ≤ 1
  · simp only [ingest, if_pos h] at hok
    rw [Except.ok.injEq, Prod.mk.injEq] at hok
    obtain ⟨he, hs⟩ := hok
    subst he hs
    rfl
  · simp only [ingest, if_neg h] at hok
    cases hok

/-- C4: after a successful ingestion, a `liveEvents` query with limit at
least 1 whose filter does not exclude the new event returns that event at
the front — the live feed is ordered most recent first. -/
theorem ingest_then_liveEvents_front (store : EventStore) (d : EventDraft)
    (now limit : Nat) (srcF : Option String) (minF : Option ℚ)
    (e : Event) (s' : EventStore)
    (hok : ingest store d now = Except.ok (e, s'))
    (hfilter : matchesFilter srcF minF e = true)
    (hlim : 1 ≤ limit) :
    (liveEvents s' limit srcF minF).head? = some e := by
  have hs : s' = store ++ [e] := ingest_ok_append store d now e s' hok
  subst hs
  rcases limit with _ | n
  · exact absurd hlim (by omega)
  · simp [liveEvents, liveFeedAll, List.filter_append, hfilter,
      List.reverse_append]

/-- Witness for C4: ingesting the concrete draft scored 0.95 into the empty
store and querying the live feed with limit 1 and no filter returns the
committed event at the front. -/
theorem ingest_then_liveEvents_front_witness :
    ∃ e s', ingest [] draft95 7 = Except.ok (e, s') ∧
      (liveEvents s' 1 none none).head? = some e := by
  rcases hok : ingest [] draft95 7 with err | ⟨e, s'⟩
  · exfalso
    simp only [ingest, draft95] at hok
    rw [if_pos (by norm_num)] at hok
    cases hok
  · exact ⟨e, s', rfl,
      ingest_then_liveEvents_front [] draft95 7 1 none none e s' hok rfl
        (by omega)⟩

/-- Counterexample to C8 as stated: with limit 1 and no filter, the event
`evA` appears in the live feed over the store `[evA]`, yet after the
append-only commit of `evB` the same call no longer returns it — the limit
truncation pushes older events out of the window, so an event present in an
earlier result can be absent from a later one. -/
theorem liveEvents_vanish_counterexample :
    evA ∈ liveEvents [evA] 1 none none ∧
    evA ∉ liveEvents [evA, evB] 1 none none := by
  constructor
  · simp [liveEvents, liveFeedAll, matchesFilter, List.filter]
  · simp [liveEvents, liveFeedAll, matchesFilter, List.filter, evA, evB,
      sampleEvent]

/-- C8 amended: across two successive `liveEvents` calls with an unchanged
filter on an append-only store, every event of the earlier result is still
present in the later untruncated feed (committed events are never updated
or removed), and is present in the later truncated result whenever the
limit does not truncate it away. -/
theorem liveEvents_monotone_amended (store new : EventStore) (limit : Nat)
    (srcF : Option String) (minF : Option ℚ) (e : Event)
    (he : e ∈ liveEvents store limit srcF minF) :
    e ∈ liveFeedAll (store ++ new) srcF minF ∧
    ((liveFeedAll (store ++ new) srcF minF).length ≤ limit →
      e ∈ liveEvents (store ++ new) limit srcF minF) := by
  have h0 : e ∈ liveFeedAll store srcF minF :=
    List.take_subset _ _ he
  have h1 : e ∈ liveFeedAll (store ++ new) srcF minF := by
    rw [liveFeedAll, List.mem_reverse] at h0 ⊢
    rw [List.filter_append]
    exact List.mem_append_left _ h0
  refine ⟨h1, fun hlen => ?_⟩
  rw [liveEvents, List.take_of_length_le hlen]
  exact h1

/-- Witness for C8 amended: `evA` is in the feed over `[evA]` with limit 5,
and after appending `evB` it is still in the untruncated feed and in the
limit-5 result. -/
theorem liveEvents_monotone_amended_witness :
    evA ∈ liveFeedAll ([evA] ++ [evB]) none none ∧
    evA ∈ liveEvents ([evA] ++ [evB]) 5 none none := by
  have he : evA ∈ liveEvents [evA] 5 none none := by
    simp [liveEvents, liveFeedAll, matchesFilter, List.filter]
  have h := liveEvents_monotone_amended [evA] [evB] 5 none none evA he
  refine ⟨h.1, h.2 ?_⟩
  simp [liveFeedAll, matchesFilter, List.filter]

/-- Helper: the single-pass accumulation, from any starting accumulator,
adds the matched set's count, score sum, and running maximum. -/
theorem statsFold_go (logs : List Event) (c : Nat) (s m : ℚ) :
    List.foldl statsStep (c, s, m) logs =
      (c + logs.length, s + (logs.map Event.score).sum,
       (logs.map Event.score).foldl max m) := by
  induction logs generalizing c s m with
  | nil => simp
  | cons e rest ih =>
    simp only [List.foldl_cons, statsStep, ih, List.length_cons,
      List.map_cons, List.sum_cons]
    refine congrArg₂ Prod.mk (by omega) (congrArg₂ Prod.mk (by ring) rfl)

/-- Helper: a left fold of `max` never goes below its start. -/
theorem le_foldl_max (l : List ℚ) (m : ℚ) : m ≤ l.foldl max m := by
  induction l generalizing m with
  | nil => exact le_refl m
  | cons a rest ih => exact le_trans (le_max_left m a) (ih (max m a))

/-- Helper: a left fold of `max` dominates every list element. -/
theorem foldl_max_le_of_mem (l : List ℚ) (m x : ℚ) (hx : x ∈ l) :
    x ≤ l.foldl max m := by
  induction l generalizing m with
  | nil => cases hx
  | cons a rest ih =>
    rcases List.mem_cons.mp hx with rfl | hx'
    · exact le_trans (le_max_right m x) (le_foldl_max rest (max m x))
    · exact ih (max m a) hx'

/-- Helper: a left fold of `max` is the start value or a list element. -/
theorem foldl_max_eq_or_mem (l : List ℚ) (m : ℚ) :
    l.foldl max m = m ∨ l.foldl max m ∈ l := by
  induction l generalizing m with
  | nil => exact Or.inl rfl
  | cons a rest ih =>
    rcases ih (max m a) with h | h
    · rcases le_total m a with hma | ham
      · right
        rw [List.foldl_cons, h, max_eq_right hma]
        exact List.mem_cons_self a rest
      · left
        rw [List.foldl_cons, h, max_eq_left ham]
    · right
      rw [List.foldl_cons]
      exact List.mem_cons_of_mem a h

/-- C2: for every source address, the investigation report's
`total_attacks` is the number of matching stored events, `avg_score` is the
arithmetic mean of their scores (when any exist), and `max_score` dominates
every matching score and is itself one of them (given the store invariant
that scores are nonnegative). -/
theorem investigate_stats (store : EventStore) (addr : String) :
    (investigate store addr).total_attacks =
      (matchingEvents store addr).length ∧
    (matchingEvents store addr ≠ [] →
      (investigate store addr).avg_score =
        ((matchingEvents store addr).map Event.score).sum /
          ((matchingEvents store addr).length : ℚ)) ∧
    (∀ e ∈ matchingEvents store addr,
      e.score ≤ (investigate store addr).max_score) ∧
    ((∀ e ∈ store, 0 ≤ e.score) → matchingEvents store addr ≠ [] →
      (investigate store addr).max_score ∈
        (matchingEvents store addr).map Event.score) := by
  have hfold : statsFold (matchingEvents store addr) =
      ((matchingEvents store addr).length,
       ((matchingEvents store addr).map Event.score).sum,
       ((matchingEvents store addr).map Event.score).foldl max 0) := by
    have h := statsFold_go (matchingEvents store addr) 0 0 0
    simpa [statsFold] using h
  refine ⟨?_, ?_, ?_, ?_⟩
  · show (statsFold (matchingEvents store addr)).1 = _
    rw [hfold]
  · intro hne
    show (if (statsFold (matchingEvents store addr)).1 = 0 then (0 : ℚ)
      else (statsFold (matchingEvents store addr)).2.1 /
        ((statsFold (matchingEvents store addr)).1 : ℚ)) = _
    have hlen : (matchingEvents store addr).length ≠ 0 := by
      simpa [List.length_eq_zero] using hne
    rw [hfold, if_neg hlen]
  · intro e he
    show e.score ≤ (statsFold (matchingEvents store addr)).2.2
    rw [hfold]
    exact foldl_max_le_of_mem _ 0 _ (List.mem_map_of_mem _ he)
  · intro hpos hne
    show (statsFold (matchingEvents store addr)).2.2 ∈ _
    rw [hfold]
    rcases foldl_max_eq_or_mem
        ((matchingEvents store addr).map Event.score) 0 with h0 | hmem
    · obtain ⟨e0, he0⟩ := List.exists_mem_of_ne_nil _ hne
      have h1 : e0.score ≤ (0 : ℚ) := by
        have hle := foldl_max_le_of_mem
          ((matchingEvents store addr).map Event.score) 0 e0.score
          (List.mem_map_of_mem _ he0)
        rw [h0] at hle
        exact hle
      have h2 : (0 : ℚ) ≤ e0.score := hpos e0 (List.mem_of_mem_filter he0)
      have h3 : e0.score = 0 := le_antisymm h1 h2
      rw [h0, ← h3]
      exact List.mem_map_of_mem _ he0
    · exact hmem

/-- Witness for C2, the §8 scenario: three events for 10.0.0.5 scored 0.95,
0.40, 0.91 give `total_attacks = 3`, `avg_score = 113/150 ≈ 0.7533`, and
`max_score = 0.95`. -/
theorem investigate_stats_witness :
    (investigate scenarioStore "10.0.0.5").total_attacks = 3 ∧
    (investigate scenarioStore "10.0.0.5").avg_score = 113 / 150 ∧
    (investigate scenarioStore "10.0.0.5").max_score = 0.95 := by
  have hlogs : matchingEvents scenarioStore "10.0.0.5" = scenarioStore := by
    simp [matchingEvents, scenarioStore, sampleEvent]
  have h := investigate_stats scenarioStore "10.0.0.5"
  have hne : matchingEvents scenarioStore "10.0.0.5" ≠ [] := by
    rw [hlogs]
    simp [scenarioStore]
  have hpos : ∀ e ∈ scenarioStore, (0 : ℚ) ≤ e.score := by
    intro e he
    simp only [scenarioStore, List.mem_cons, List.not_mem_nil, or_false] at he
    rcases he with rfl | rfl | rfl <;> norm_num [sampleEvent]
  refine ⟨?_, ?_, ?_⟩
  · rw [h.1, hlogs]
    rfl
  · rw [h.2.1 hne, hlogs]
    simp only [scenarioStore, List.map_cons, List.map_nil, List.sum_cons,
      List.sum_nil, List.length_cons, List.length_nil, sampleEvent]
    norm_num
  · have h4 := h.2.2.2 hpos hne
    rw [hlogs] at h4
    simp only [scenarioStore, List.map_cons, List.map_nil, List.mem_cons,
      List.not_mem_nil, or_false, sampleEvent] at h4
    have hle : (0.95 : ℚ) ≤ (investigate scenarioStore "10.0.0.5").max_score := by
      have h5 := h.2.2.1 (sampleEvent 0 "10.0.0.5" 0.95 100)
        (by rw [hlogs]; simp [scenarioStore])
      simpa [sampleEvent] using h5
    rcases h4 with h4 | h4 | h4
    · exact h4
    · have h4' : (investigate scenarioStore "10.0.0.5").max_score = 0.40 := h4
      rw [h4'] at hle
      norm_num at hle
    · have h4' : (investigate scenarioStore "10.0.0.5").max_score = 0.91 := h4
      rw [h4'] at hle
      norm_num at hle

/-- Helper: a degenerate bucket `[a, a)` holds no events. -/
theorem bucketCount_degenerate (store : EventStore) (a : Nat) :
    bucketCount store a a = 0 := by
  induction store with
  | nil => rfl
  | cons e rest ih =>
    simp only [bucketCount, List.filter_cons] at ih ⊢
    have hfalse : inBucket a a e = false := by
      simp only [inBucket, Bool.and_eq_false_iff, decide_eq_false_iff_not]
      omega
    simp [hfalse, ih]

/-- Helper: adjacent left-closed/right-open intervals partition the events
they jointly cover. -/
theorem bucketCount_split (store : EventStore) (lo mid hi : Nat)
    (h1 : lo ≤ mid) (h2 : mid ≤ hi) :
    bucketCount store lo mid + bucketCount store mid hi =
      bucketCount store lo hi := by
  induction store with
  | nil => rfl
  | cons e rest ih =>
    simp only [bucketCount, List.filter_cons] at ih ⊢
    by_cases ha : lo ≤ e.created_at <;> by_cases hb : e.created_at < mid <;>
      by_cases hc : mid ≤ e.created_at <;>
      by_cases hd : e.created_at < hi <;>
      simp [inBucket, ha, hb, hc, hd] <;> omega

/-- C3: for every window and bucket width, the time series has one entry
per bucket of the window (a zero-count bucket appears, never missing),
bucket membership is left-closed/right-open over `created_at`, and the sum
over all bucket counts equals the window's total event count. -/
theorem timeSeries_spec (store : EventStore) (start width n : Nat) :
    (timeSeries store start width n).length = n ∧
    (∀ i, i < n →
      (start + i * width,
       bucketCount store (start + i * width) (start + i * width + width)) ∈
        timeSeries store start width n) ∧
    (∀ lo hi : Nat, ∀ e : Event,
      inBucket lo hi e = true ↔ lo ≤ e.created_at ∧ e.created_at < hi) ∧
    ((timeSeries store start width n).map Prod.snd).sum =
      windowCount store start width n := by
  refine ⟨by simp [timeSeries], ?_, ?_, ?_⟩
  · intro i hi
    simp only [timeSeries, List.mem_map]
    exact ⟨i, List.mem_range.mpr hi, rfl⟩
  · intro lo hi e
    simp [inBucket]
  · induction n with
    | zero =>
      simp only [timeSeries, windowCount, List.range_zero, List.map_nil,
        List.sum_nil, Nat.zero_mul, Nat.add_zero]
      exact (bucketCount_degenerate store start).symm
    | succ k ih =>
      have e1 : start + (k + 1) * width = start + k * width + width := by
        ring
      have hsplit := bucketCount_split store start (start + k * width)
        (start + k * width + width) (Nat.le_add_right _ _)
        (Nat.le_add_right _ _)
      rw [windowCount, e1, ← hsplit]
      rw [windowCount] at ih
      simp only [timeSeries] at ih ⊢
      rw [List.range_succ, List.map_append, List.map_append,
        List.sum_append, ih]
      simp

/-- Witness for C3: over `tsStore` with window start 0, width 10 and 3
buckets, the series has 3 entries, the (empty) middle bucket is present
with count 0, and the counts sum to the windowed total. -/
theorem timeSeries_spec_witness :
    (timeSeries tsStore 0 10 3).length = 3 ∧
    (0 + 1 * 10, bucketCount tsStore (0 + 1 * 10) (0 + 1 * 10 + 10)) ∈
      timeSeries tsStore 0 10 3 ∧
    bucketCount tsStore (0 + 1 * 10) (0 + 1 * 10 + 10) = 0 ∧
    ((timeSeries tsStore 0 10 3).map Prod.snd).sum =
      windowCount tsStore 0 10 3 := by
  have h := timeSeries_spec tsStore 0 10 3
  exact ⟨h.1, h.2.1 1 (by omega), rfl, h.2.2.2⟩

/-- Helper: folding the per-commit aggregate update from any starting
accumulator adds exactly the full-scan totals of the processed events. -/
theorem totalsIncremental_go (events : List Event) (a : AggTotals) :
    events.foldl totalsStep a =
      ⟨a.total + (totalsScan events).total,
       a.sumScore + (totalsScan events).sumScore,
       a.highRisk + (totalsScan events).highRisk⟩ := by
  induction events generalizing a with
  | nil =>
    cases a
    simp [totalsScan]
  | cons e rest ih =>
    rw [List.foldl_cons, ih]
    by_cases h : (0.8 : ℚ) ≤ e.score
    · simp only [totalsScan, totalsStep, List.filter_cons, List.length_cons,
        List.map_cons, List.sum_cons, h, decide_True, if_true,
        AggTotals.mk.injEq]
      exact ⟨by omega, by ring, by omega⟩
    · simp only [totalsScan, totalsStep, List.filter_cons, List.length_cons,
        List.map_cons, List.sum_cons, h, decide_False, Bool.false_eq_true,
        if_false, ite_false, AggTotals.mk.injEq]
      exact ⟨by omega, by ring, trivial⟩

/-- C7: for every sequence of ingested events, the aggregation totals
maintained by the incremental path equal the totals recomputed by a full
scan of the Event Store at that point. -/
theorem totals_incremental_eq_scan (events : List Event) :
    totalsIncremental events = totalsScan events := by
  rw [totalsIncremental, totalsIncremental_go events ⟨0, 0, 0⟩]
  simp

end Honeypot
